import Mathlib

/-!
Formal model of the Modpilot modpack manager (Go sources: `modrinth.go`,
`config.go`, `main.go`).

The embedding is shallow: the pure decision logic of each Go function is
transcribed as an executable Lean function.  External effects (HTTP, stdin,
the on-disk JSON files and the directory listing) are passed in as explicit
values, matching the repository's own framing of those as external
capabilities:

  - an HTTP fetch outcome becomes an `Except String Version` value;
  - the confirmation prompt's line read from stdin becomes a `String`;
  - `os.MkdirAll` / `DownloadFile` / `os.Remove` outcomes become `Bool`
    success flags;
  - the mods directory becomes an `FS` value (a set of directory paths and a
    set of file paths);
  - the persisted `state.json` map (pack name -> slug -> last version id, as
    read and written by `main.go`'s `update` command) becomes an association
    list `State`;
  - the parsed `config.json` becomes a `Config` value; `LoadConfig`'s
    post-parse validation is `loadConfigChecked`.

Go map lookups that default to the zero value are modelled by
`lookupDefault` / `getPack`, and Go's in-place map writes by the
replace-or-append functions `setRecord` / `setPack`.
-/

namespace Modpilot

/-- One downloadable file of a release, from `modrinth.go` (`Version.Files`
entries with `url` and `filename`). -/
structure VersionFile where
  url : String
  filename : String
  deriving DecidableEq

/-- A Modrinth release descriptor, from `modrinth.go` (`type Version`). -/
structure Version where
  id : String
  gameVersions : List String
  loaders : List String
  files : List VersionFile
  deriving DecidableEq

/-- Compatibility test used by `FetchLatestVersion`'s scan: the release lists
the requested Minecraft version among `game_versions` and the requested
loader among `loaders`. -/
def compatibleVersion (mcVersion loader : String) (v : Version) : Bool :=
  v.gameVersions.contains mcVersion && v.loaders.contains loader

/-- The scan loop of `FetchLatestVersion` (`modrinth.go` lines 42-58): walk
the decoded release list in order; for each release first check
`game_versions`, then `loaders`; return the first release passing both. -/
def findCompatible (mcVersion loader : String) : List Version → Option Version
  | [] => none
  | v :: rest =>
    if v.gameVersions.contains mcVersion then
      if v.loaders.contains loader then some v
      else findCompatible mcVersion loader rest
    else findCompatible mcVersion loader rest

/-- `FetchLatestVersion` (`modrinth.go` lines 23-60) after the HTTP GET and
JSON decode (both external): error on an empty list, otherwise return the
first compatible release or a no-compatible-version error. -/
def fetchLatestVersion (slug mcVersion loader : String) (versions : List Version) :
    Except String Version :=
  if versions.isEmpty then
    .error ("no versions found for " ++ slug)
  else
    match findCompatible mcVersion loader versions with
    | some v => .ok v
    | none =>
      .error ("no compatible version found for " ++ slug ++
        " (MC " ++ mcVersion ++ ", loader " ++ loader ++ ")")

/-- Go `path.Base` as used by `DownloadFile` (`modrinth.go` line 73) to name
the downloaded file after the URL's final path segment. -/
def pathBase (p : String) : String :=
  if p = "" then "."
  else
    let rev := p.data.reverse.dropWhile (fun c => c = '/')
    if rev = [] then "/"
    else String.mk (rev.takeWhile (fun c => c ≠ '/')).reverse

/-- Settings of a single modpack, from `config.go` (`type ModpackConfig`). -/
structure ModpackConfig where
  mcVersion : String
  loader : String
  mods : List String
  deriving DecidableEq

/-- Top-level parsed `config.json`, from `config.go` (`type Config`); the
modpack map is modelled as an association list (Go maps have unique keys). -/
structure Config where
  defaultMCVersion : String
  defaultLoader : String
  modpacks : List (String × ModpackConfig)
  deriving DecidableEq

/-- Last known version id and filename for a mod, from `config.go`
(`type ModState`).  Note that `main.go`'s `update` command manipulates the
state as plain version-id strings, not as `ModState` values. -/
structure ModState where
  versionID : String
  filename : String
  deriving DecidableEq

/-- Per-pack slice of the persisted state, as `main.go` uses it:
slug -> last downloaded version id. -/
abbrev PackState := List (String × String)

/-- The persisted `state.json` map as `main.go` uses it:
pack name -> slug -> last downloaded version id. -/
abbrev State := List (String × PackState)

/-- The validation loop of `LoadConfig` (`config.go` lines 49-57): reject any
modpack with an empty `mc_version` or an empty `loader`. -/
def validateModpacks : List (String × ModpackConfig) → Except String Unit
  | [] => .ok ()
  | (name, pc) :: rest =>
    if pc.mcVersion = "" then
      .error ("config validation failed: modpack " ++ name ++ " is missing mc_version")
    else if pc.loader = "" then
      .error ("config validation failed: modpack " ++ name ++ " is missing loader")
    else validateModpacks rest

/-- `LoadConfig` (`config.go` lines 33-61) after the file read and JSON
unmarshal (both external): run the validation loop and return the parsed
configuration unchanged on success. -/
def loadConfigChecked (cfg : Config) : Except String Config :=
  match validateModpacks cfg.modpacks with
  | .ok _ => .ok cfg
  | .error e => .error e

/-- Go map read with zero-value default: `state[pack][slug]` yields `""`
when the slug has no record. -/
def lookupDefault (ps : PackState) (slug : String) : String :=
  match ps.find? (fun p => p.1 == slug) with
  | some p => p.2
  | none => ""

/-- Go map write `state[pack][slug] = id`: replace the record if the key is
present, otherwise add it. -/
def setRecord (ps : PackState) (slug vid : String) : PackState :=
  match ps.find? (fun p => p.1 == slug) with
  | some _ => ps.map (fun p => if p.1 == slug then (slug, vid) else p)
  | none => ps ++ [(slug, vid)]

/-- Go map read `state[pack]` with empty default. -/
def getPack (state : State) (packName : String) : PackState :=
  match state.find? (fun p => p.1 == packName) with
  | some p => p.2
  | none => []

/-- `main.go` lines 835-837: `if state[packName] == nil` then install an
empty per-pack map before the loop runs. -/
def ensurePack (state : State) (packName : String) : State :=
  match state.find? (fun p => p.1 == packName) with
  | some _ => state
  | none => state ++ [(packName, [])]

/-- Go map write `state[pack] = ps`. -/
def setPack (state : State) (packName : String) (ps : PackState) : State :=
  match state.find? (fun p => p.1 == packName) with
  | some _ => state.map (fun p => if p.1 == packName then (packName, ps) else p)
  | none => state ++ [(packName, ps)]

/-- The mods directory seen as data: which directories and which files
exist.  Both lists are kept duplicate-free by `insertIfAbsent`. -/
structure FS where
  dirs : List String
  files : List String
  deriving DecidableEq

/-- Set-like insertion: `os.MkdirAll` is idempotent and `os.Create`
truncates an existing file rather than duplicating it. -/
def insertIfAbsent (x : String) (l : List String) : List String :=
  if l.contains x then l else l ++ [x]

deriving instance DecidableEq for Except

/-- Per-slug external world of one `update` loop iteration: the resolver
outcome, the line read at the confirmation prompt, and the success of the
`os.MkdirAll` and `DownloadFile` calls. -/
structure StepEnv where
  fetch : Except String Version
  answer : String
  mkdirOk : Bool
  downloadOk : Bool
  deriving DecidableEq

/-- How one `update` loop iteration ended, mirroring the branches of
`main.go` lines 840-877.  `crashed` is the out-of-range panic of
`ver.Files[0]` on a release with no files. -/
inductive Outcome where
  | fetchErr
  | upToDate
  | skipped
  | mkdirErr
  | crashed
  | downloadErr
  | updated
  deriving DecidableEq

/-- Go `strings.ToLower`, character by character. -/
def toLowerStr (s : String) : String :=
  String.mk (s.data.map Char.toLower)

/-- Go `strings.TrimSpace`: drop whitespace from both ends. -/
def trimStr (s : String) : String :=
  String.mk (((s.data.dropWhile Char.isWhitespace).reverse.dropWhile Char.isWhitespace).reverse)

/-- `strings.TrimSpace(strings.ToLower(yn))` applied to the prompt answer
(`main.go` line 856). -/
def normalizeAnswer (yn : String) : String := trimStr (toLowerStr yn)

/-- Number of `DownloadFile` invocations implied by an iteration outcome:
the code calls `DownloadFile` exactly once on the path that ends in
`updated` or `downloadErr`, and never otherwise. -/
def downloadCalls : Outcome → Nat
  | .updated => 1
  | .downloadErr => 1
  | _ => 0

/-- Result of one `update` loop iteration. -/
structure StepResult where
  outcome : Outcome
  packState : PackState
  fs : FS
  deriving DecidableEq

/-- One iteration of the `update` loop (`main.go` lines 840-877):
fetch the latest release; compare its id with the recorded one; prompt
unless `--yes`; ensure the destination directory; download the release's
first file; record the new version id only after a successful download. -/
def processSlug (autoYes : Bool) (modsDir packName slug : String) (env : StepEnv)
    (st : PackState) (fs : FS) : StepResult :=
  match env.fetch with
  | .error _ => ⟨.fetchErr, st, fs⟩
  | .ok ver =>
    if ver.id = lookupDefault st slug then ⟨.upToDate, st, fs⟩
    else if autoYes = false ∧ ¬ normalizeAnswer env.answer = "y" then ⟨.skipped, st, fs⟩
    else if env.mkdirOk = false then ⟨.mkdirErr, st, fs⟩
    else
      let destDir := modsDir ++ "/" ++ packName
      let fs1 : FS := ⟨insertIfAbsent destDir fs.dirs, fs.files⟩
      match ver.files.head? with
      | none => ⟨.crashed, st, fs1⟩
      | some f0 =>
        if env.downloadOk = false then ⟨.downloadErr, st, fs1⟩
        else
          let outPath := destDir ++ "/" ++ pathBase f0.url
          ⟨.updated, setRecord st slug ver.id, ⟨fs1.dirs, insertIfAbsent outPath fs1.files⟩⟩

/-- Result of the whole `update` loop: the per-slug report, the final
per-pack state, the final filesystem, and whether the loop died in the
`ver.Files[0]` panic (in which case the remaining slugs were never reached
and `SaveState` never ran). -/
structure LoopResult where
  report : List (String × Outcome)
  packState : PackState
  fs : FS
  crashed : Bool
  deriving DecidableEq

/-- The `update` loop over the pack's declared slugs, in declared order. -/
def updateLoop (autoYes : Bool) (modsDir packName : String) (envs : String → StepEnv) :
    List String → PackState → FS → LoopResult
  | [], st, fs => ⟨[], st, fs, false⟩
  | slug :: rest, st, fs =>
    let r := processSlug autoYes modsDir packName slug (envs slug) st fs
    if r.outcome = .crashed then ⟨[(slug, r.outcome)], r.packState, r.fs, true⟩
    else
      let tailR := updateLoop autoYes modsDir packName envs rest r.packState r.fs
      ⟨(slug, r.outcome) :: tailR.report, tailR.packState, tailR.fs, tailR.crashed⟩

/-- Final result of a completed `update` command run. -/
structure CmdResult where
  state : State
  fs : FS
  report : List (String × Outcome)
  deriving DecidableEq

/-- The `update` command (`main.go` lines 806-885) given an already loaded
configuration and state: look up the pack (abort if unknown), default its
state entry, run the loop, and persist the final state.  The resolver,
prompt, mkdir and download capabilities are supplied per slug by `envs`. -/
def updateCmd (cfg : Config) (packName : String) (autoYes : Bool) (modsDir : String)
    (envs : String → StepEnv) (state : State) (fs : FS) : Except String CmdResult :=
  match cfg.modpacks.find? (fun p => p.1 == packName) with
  | none => .error ("modpack " ++ packName ++ " not found")
  | some p =>
    let state1 := ensurePack state packName
    let r := updateLoop autoYes modsDir packName envs p.2.mods (getPack state1 packName) fs
    if r.crashed then .error "runtime error: index out of range"
    else .ok ⟨setPack state1 packName r.packState, r.fs, r.report⟩

/-- Contiguous-sublist test on character lists (Go `strings.Contains` after
unpacking both strings). -/
def charsContain (hay needle : List Char) : Bool :=
  match hay with
  | [] => needle.isEmpty
  | _ :: rest => needle.isPrefixOf hay || charsContain rest needle

/-- `strings.Contains` on Go strings, used by `sync`'s keep test. -/
def strContains (s sub : String) : Bool :=
  charsContain s.data sub.data

/-- One entry of the `ioutil.ReadDir` listing. -/
structure DirEntry where
  name : String
  isDir : Bool
  deriving DecidableEq

/-- The keep test of `sync` (`main.go` lines 990-996): a file is kept iff
its lowercased name contains the lowercased slug of some declared mod. -/
def syncKeep (mods : List String) (name : String) : Bool :=
  mods.any (fun slug => strContains (toLowerStr name) (toLowerStr slug))

/-- The deletion loop of `sync` (`main.go` lines 983-1007): for every
non-directory entry failing the keep test, attempt `os.Remove` (a failure
is reported and does not stop the scan).  Returns the attempted removal
paths in listing order and the count of successful removals. -/
def syncProcess (dir : String) (mods : List String) (removeOk : String → Bool) :
    List DirEntry → List String × Nat
  | [] => ([], 0)
  | f :: rest =>
    let r := syncProcess dir mods removeOk rest
    if f.isDir then r
    else if syncKeep mods f.name then r
    else
      let filePath := dir ++ "/" ++ f.name
      if removeOk filePath then (filePath :: r.1, r.2 + 1)
      else (filePath :: r.1, r.2)

/-- The `sync` command (`main.go` lines 941-1015) given an already loaded
configuration: look up the pack (abort if unknown); a missing directory
(`listing = none`) is not an error and removes nothing; otherwise run the
deletion loop over the listing. -/
def syncCmd (cfg : Config) (packName modsDir : String)
    (listing : Option (List DirEntry)) (removeOk : String → Bool) :
    Except String (List String × Nat) :=
  match cfg.modpacks.find? (fun p => p.1 == packName) with
  | none => .error ("modpack " ++ packName ++ " not found")
  | some p =>
    match listing with
    | none => .ok ([], 0)
    | some files => .ok (syncProcess (modsDir ++ "/" ++ packName) p.2.mods removeOk files)

/-! Concrete fixtures used by the example runs below, following the
scenario of the specification (pack `P` on MC `1.20.1` / `fabric`, mod
slug `alpha`, releases `r1` and `r2`). -/

/-- Fixture: file descriptor of release `r1`. -/
def fileA1 : VersionFile := ⟨"https://cdn.example/alpha-1.0.jar", "alpha-1.0.jar"⟩

/-- Fixture: file descriptor of release `r2`. -/
def fileA2 : VersionFile := ⟨"https://cdn.example/alpha-2.0.jar", "alpha-2.0.jar"⟩

/-- Fixture: release `r1`, compatible with MC 1.20.1 / fabric. -/
def verR1 : Version := ⟨"r1", ["1.20.1"], ["fabric"], [fileA1]⟩

/-- Fixture: release `r2`, compatible with MC 1.20.1 / fabric. -/
def verR2 : Version := ⟨"r2", ["1.20.1"], ["fabric"], [fileA2]⟩

/-- Fixture: an incompatible release (wrong game version and loader). -/
def verOld : Version := ⟨"r0", ["1.19.2"], ["forge"], [fileA1]⟩

/-- Fixture: a compatible release carrying no file descriptors at all. -/
def verNoFiles : Version := ⟨"r3", ["1.20.1"], ["fabric"], []⟩

/-- Fixture: configuration with one pack `P` declaring the single mod
`alpha`. -/
def cfgP : Config := ⟨"", "", [("P", ⟨"1.20.1", "fabric", ["alpha"]⟩)]⟩

/-- Fixture: configuration with one pack `Q` declaring mods `a` and `b`. -/
def cfgAB : Config := ⟨"", "", [("Q", ⟨"1.20.1", "fabric", ["a", "b"]⟩)]⟩

/-- Fixture: step environment whose fetch fails. -/
def envFetchErr : StepEnv := ⟨.error "transport error", "", true, true⟩

/-- Fixture: step environment resolving `r1` with a failing download. -/
def envDownloadFail : StepEnv := ⟨.ok verR1, "", true, false⟩

/-- Fixture: step environment resolving `r1` with everything succeeding. -/
def envR1 : StepEnv := ⟨.ok verR1, "", true, true⟩

/-- Fixture: step environment resolving `r2` with everything succeeding. -/
def envR2 : StepEnv := ⟨.ok verR2, "", true, true⟩

/-- Fixture: an install record as `config.go`'s `ModState` describes one,
for a mod `zeta` that is no longer in any declared mod list. -/
def recZeta : ModState := ⟨"vZ", "zeta-1.0.jar"⟩

/-! Helper lemmas. -/

theorem mem_insertIfAbsent_of_mem (x a : String) (l : List String) (h : a ∈ l) :
    a ∈ insertIfAbsent x l := by
  unfold insertIfAbsent
  split
  · exact h
  · exact List.mem_append_left _ h

theorem compatibleVersion_true_of (mc ld : String) (v : Version)
    (hg : v.gameVersions.contains mc = true) (hl : v.loaders.contains ld = true) :
    compatibleVersion mc ld v = true := by
  simp only [compatibleVersion, hg, hl, Bool.and_self]

theorem compatibleVersion_false_of_loaders (mc ld : String) (v : Version)
    (hl : ¬ v.loaders.contains ld = true) :
    compatibleVersion mc ld v = false := by
  have hl2 : v.loaders.contains ld = false := by
    cases hb : v.loaders.contains ld
    · rfl
    · exact absurd hb hl
  simp only [compatibleVersion, hl2, Bool.and_false]

theorem compatibleVersion_false_of_game (mc ld : String) (v : Version)
    (hg : ¬ v.gameVersions.contains mc = true) :
    compatibleVersion mc ld v = false := by
  have hg2 : v.gameVersions.contains mc = false := by
    cases hb : v.gameVersions.contains mc
    · rfl
    · exact absurd hb hg
  simp only [compatibleVersion, hg2, Bool.false_and]

theorem findCompatible_cons_hit (mc ld : String) (v : Version) (rest : List Version)
    (hg : v.gameVersions.contains mc = true) (hl : v.loaders.contains ld = true) :
    findCompatible mc ld (v :: rest) = some v := by
  simp only [findCompatible]
  rw [if_pos hg, if_pos hl]

theorem findCompatible_cons_missLoader (mc ld : String) (v : Version) (rest : List Version)
    (hg : v.gameVersions.contains mc = true) (hl : ¬ v.loaders.contains ld = true) :
    findCompatible mc ld (v :: rest) = findCompatible mc ld rest := by
  simp only [findCompatible]
  rw [if_pos hg, if_neg hl]

theorem findCompatible_cons_missGame (mc ld : String) (v : Version) (rest : List Version)
    (hg : ¬ v.gameVersions.contains mc = true) :
    findCompatible mc ld (v :: rest) = findCompatible mc ld rest := by
  simp only [findCompatible]
  rw [if_neg hg]

theorem findCompatible_eq_none (mc ld : String) :
    ∀ l : List Version, findCompatible mc ld l = none ↔
      ∀ v ∈ l, compatibleVersion mc ld v = false := by
  intro l
  induction l with
  | nil => simp [findCompatible]
  | cons v rest ih =>
    by_cases hg : v.gameVersions.contains mc = true
    · by_cases hl : v.loaders.contains ld = true
      · rw [findCompatible_cons_hit mc ld v rest hg hl]
        constructor
        · intro h; exact absurd h (by simp)
        · intro h
          have hv := h v (List.mem_cons_self v rest)
          rw [compatibleVersion_true_of mc ld v hg hl] at hv
          exact Bool.noConfusion hv
      · rw [findCompatible_cons_missLoader mc ld v rest hg hl, ih]
        constructor
        · intro h u hu
          rcases List.mem_cons.mp hu with hu | hu
          · subst hu; exact compatibleVersion_false_of_loaders mc ld u hl
          · exact h u hu
        · intro h u hu
          exact h u (List.mem_cons_of_mem _ hu)
    · rw [findCompatible_cons_missGame mc ld v rest hg, ih]
      constructor
      · intro h u hu
        rcases List.mem_cons.mp hu with hu | hu
        · subst hu; exact compatibleVersion_false_of_game mc ld u hg
        · exact h u hu
      · intro h u hu
        exact h u (List.mem_cons_of_mem _ hu)

theorem findCompatible_eq_some (mc ld : String) :
    ∀ (l : List Version) (v : Version), findCompatible mc ld l = some v →
      compatibleVersion mc ld v = true ∧
      ∃ pre post, l = pre ++ v :: post ∧ ∀ u ∈ pre, compatibleVersion mc ld u = false := by
  intro l
  induction l with
  | nil => intro v h; simp [findCompatible] at h
  | cons w rest ih =>
    intro v h
    by_cases hg : w.gameVersions.contains mc = true
    · by_cases hl : w.loaders.contains ld = true
      · rw [findCompatible_cons_hit mc ld w rest hg hl] at h
        simp only [Option.some.injEq] at h
        subst h
        exact ⟨compatibleVersion_true_of mc ld w hg hl, [], rest, rfl, by simp⟩
      · rw [findCompatible_cons_missLoader mc ld w rest hg hl] at h
        obtain ⟨hc, pre, post, heq, hpre⟩ := ih v h
        refine ⟨hc, w :: pre, post, by rw [heq]; rfl, ?_⟩
        intro u hu
        rcases List.mem_cons.mp hu with hu | hu
        · subst hu; exact compatibleVersion_false_of_loaders mc ld u hl
        · exact hpre u hu
    · rw [findCompatible_cons_missGame mc ld w rest hg] at h
      obtain ⟨hc, pre, post, heq, hpre⟩ := ih v h
      refine ⟨hc, w :: pre, post, by rw [heq]; rfl, ?_⟩
      intro u hu
      rcases List.mem_cons.mp hu with hu | hu
      · subst hu; exact compatibleVersion_false_of_game mc ld u hg
      · exact hpre u hu

theorem validateModpacks_error (l : List (String × ModpackConfig)) :
    ∀ q ∈ l, (q.2.mcVersion = "" ∨ q.2.loader = "") →
      ∃ e, validateModpacks l = .error e := by
  induction l with
  | nil => intro q hq; simp at hq
  | cons hd tl ih =>
    obtain ⟨name, pc⟩ := hd
    intro q hq hbad
    by_cases h1 : pc.mcVersion = ""
    · exact ⟨"config validation failed: modpack " ++ name ++ " is missing mc_version",
        by simp [validateModpacks, h1]⟩
    · by_cases h2 : pc.loader = ""
      · exact ⟨"config validation failed: modpack " ++ name ++ " is missing loader",
          by simp [validateModpacks, h1, h2]⟩
      · rcases List.mem_cons.mp hq with hq | hq
        · subst hq
          rcases hbad with hbad | hbad
          · exact absurd hbad h1
          · exact absurd hbad h2
        · obtain ⟨e, he⟩ := ih q hq hbad
          exact ⟨e, by simp [validateModpacks, h1, h2, he]⟩

/-! Claim C1. -/

/-- C1: for every slug, platform version and loader, `FetchLatestVersion`
scans the fetched release list in source order and returns the first release
whose `game_versions` contains the requested version and whose `loaders`
contains the requested loader; it errors exactly when the list is empty or
no release satisfies both filters, and any returned release satisfies both
filters. -/
theorem fetchLatestVersion_first_compatible (slug mc ld : String) (versions : List Version) :
    (∀ v, fetchLatestVersion slug mc ld versions = .ok v →
      compatibleVersion mc ld v = true ∧
      ∃ pre post, versions = pre ++ v :: post ∧
        ∀ u ∈ pre, compatibleVersion mc ld u = false) ∧
    ((∃ e, fetchLatestVersion slug mc ld versions = .error e) ↔
      versions = [] ∨ ∀ v ∈ versions, compatibleVersion mc ld v = false) := by
  constructor
  · intro v hv
    unfold fetchLatestVersion at hv
    by_cases he : versions.isEmpty = true
    · rw [if_pos he] at hv
      exact absurd hv (by simp)
    · rw [if_neg he] at hv
      cases hf : findCompatible mc ld versions with
      | none => rw [hf] at hv; exact absurd hv (by simp)
      | some w =>
        rw [hf] at hv
        simp only [Except.ok.injEq] at hv
        subst hv
        exact findCompatible_eq_some mc ld versions w hf
  · constructor
    · rintro ⟨e, he⟩
      unfold fetchLatestVersion at he
      by_cases hne : versions.isEmpty = true
      · exact Or.inl (List.isEmpty_iff.mp hne)
      · rw [if_neg hne] at he
        cases hf : findCompatible mc ld versions with
        | none => exact Or.inr ((findCompatible_eq_none mc ld versions).mp hf)
        | some w => rw [hf] at he; exact absurd he (by simp)
    · intro h
      rcases h with h | h
      · subst h
        exact ⟨"no versions found for " ++ slug, by simp [fetchLatestVersion]⟩
      · unfold fetchLatestVersion
        by_cases hne : versions.isEmpty = true
        · rw [if_pos hne]; exact ⟨_, rfl⟩
        · rw [if_neg hne]
          rw [(findCompatible_eq_none mc ld versions).mpr h]
          exact ⟨_, rfl⟩

/-- Witness for C1 at a concrete release list: the incompatible release
`verOld` is scanned past and the first compatible release `verR1` is
returned with its compatibility established. -/
theorem fetchLatestVersion_first_compatible_witness :
    compatibleVersion "1.20.1" "fabric" verR1 = true ∧
    ∃ pre post, [verOld, verR1, verR2] = pre ++ verR1 :: post ∧
      ∀ u ∈ pre, compatibleVersion "1.20.1" "fabric" u = false :=
  (fetchLatestVersion_first_compatible "alpha" "1.20.1" "fabric" [verOld, verR1, verR2]).1
    verR1 (by decide)

/-! Claim C9. -/

/-- C9: `LoadConfig` fails for every configuration in which some declared
modpack has an empty `mc_version` or an empty `loader`, and a successful
load returns the configuration unchanged (nothing is silently defaulted). -/
theorem loadConfig_rejects_empty_fields (cfg : Config) :
    ((∃ q, q ∈ cfg.modpacks ∧ (q.2.mcVersion = "" ∨ q.2.loader = "")) →
      ∃ e, loadConfigChecked cfg = .error e) ∧
    (∀ c, loadConfigChecked cfg = .ok c → c = cfg) := by
  constructor
  · rintro ⟨q, hq, hbad⟩
    obtain ⟨e, he⟩ := validateModpacks_error cfg.modpacks q hq hbad
    exact ⟨e, by simp [loadConfigChecked, he]⟩
  · intro c hc
    unfold loadConfigChecked at hc
    cases h : validateModpacks cfg.modpacks with
    | ok u => rw [h] at hc; simp only [Except.ok.injEq] at hc; exact hc.symm
    | error e => rw [h] at hc; exact absurd hc (by simp)

/-- Witness for C9: a configuration whose pack `P` has an empty
`mc_version` is rejected by the load. -/
theorem loadConfig_rejects_empty_fields_witness :
    ∃ e, loadConfigChecked ⟨"", "", [("P", ⟨"", "fabric", []⟩)]⟩ = .error e :=
  (loadConfig_rejects_empty_fields ⟨"", "", [("P", ⟨"", "fabric", []⟩)]⟩).1
    ⟨("P", ⟨"", "fabric", []⟩), by decide, Or.inl rfl⟩

/-! Characterization of one `update` loop iteration. -/

theorem processSlug_spec (autoYes : Bool) (md pn slug : String) (env : StepEnv)
    (st : PackState) (fs : FS) :
    (processSlug autoYes md pn slug env st fs =
        ⟨(processSlug autoYes md pn slug env st fs).outcome, st, fs⟩ ∧
      ((processSlug autoYes md pn slug env st fs).outcome = .fetchErr ∨
       (processSlug autoYes md pn slug env st fs).outcome = .upToDate ∨
       (processSlug autoYes md pn slug env st fs).outcome = .skipped ∨
       (processSlug autoYes md pn slug env st fs).outcome = .mkdirErr)) ∨
    (processSlug autoYes md pn slug env st fs =
        ⟨.downloadErr, st, ⟨insertIfAbsent (md ++ "/" ++ pn) fs.dirs, fs.files⟩⟩ ∧
      env.downloadOk = false) ∨
    (processSlug autoYes md pn slug env st fs =
        ⟨.crashed, st, ⟨insertIfAbsent (md ++ "/" ++ pn) fs.dirs, fs.files⟩⟩ ∧
      ∃ ver, env.fetch = .ok ver ∧ ver.files = []) ∨
    (∃ ver f0, env.fetch = .ok ver ∧ ver.files.head? = some f0 ∧ env.downloadOk = true ∧
      processSlug autoYes md pn slug env st fs =
        ⟨.updated, setRecord st slug ver.id,
         ⟨insertIfAbsent (md ++ "/" ++ pn) fs.dirs,
          insertIfAbsent ((md ++ "/" ++ pn) ++ "/" ++ pathBase f0.url) fs.files⟩⟩) := by
  cases hf : env.fetch with
  | error e =>
    have hr : processSlug autoYes md pn slug env st fs = ⟨.fetchErr, st, fs⟩ := by
      simp [processSlug, hf]
    exact Or.inl ⟨by rw [hr], by rw [hr]; exact Or.inl rfl⟩
  | ok ver =>
    by_cases h1 : ver.id = lookupDefault st slug
    · have hr : processSlug autoYes md pn slug env st fs = ⟨.upToDate, st, fs⟩ := by
        simp [processSlug, hf, h1]
      exact Or.inl ⟨by rw [hr], by rw [hr]; exact Or.inr (Or.inl rfl)⟩
    · by_cases h2 : autoYes = false ∧ ¬ normalizeAnswer env.answer = "y"
      · have hr : processSlug autoYes md pn slug env st fs = ⟨.skipped, st, fs⟩ := by
          simp only [processSlug, hf]
          rw [if_neg h1, if_pos h2]
        exact Or.inl ⟨by rw [hr], by rw [hr]; exact Or.inr (Or.inr (Or.inl rfl))⟩
      · by_cases h3 : env.mkdirOk = false
        · have hr : processSlug autoYes md pn slug env st fs = ⟨.mkdirErr, st, fs⟩ := by
            simp only [processSlug, hf]
            rw [if_neg h1, if_neg h2, if_pos h3]
          exact Or.inl ⟨by rw [hr], by rw [hr]; exact Or.inr (Or.inr (Or.inr rfl))⟩
        · cases hh : ver.files.head? with
          | none =>
            have hr : processSlug autoYes md pn slug env st fs =
                ⟨.crashed, st, ⟨insertIfAbsent (md ++ "/" ++ pn) fs.dirs, fs.files⟩⟩ := by
              simp only [processSlug, hf]
              rw [if_neg h1, if_neg h2, if_neg h3]
              simp only [hh]
            exact Or.inr (Or.inr (Or.inl ⟨hr, ver, rfl, List.head?_eq_none_iff.mp hh⟩))
          | some f0 =>
            by_cases h4 : env.downloadOk = false
            · have hr : processSlug autoYes md pn slug env st fs =
                  ⟨.downloadErr, st, ⟨insertIfAbsent (md ++ "/" ++ pn) fs.dirs, fs.files⟩⟩ := by
                simp only [processSlug, hf]
                rw [if_neg h1, if_neg h2, if_neg h3]
                simp only [hh]
                rw [if_pos h4]
              exact Or.inr (Or.inl ⟨hr, h4⟩)
            · have h4t : env.downloadOk = true := by
                cases hb : env.downloadOk
                · exact absurd hb h4
                · rfl
              have hr : processSlug autoYes md pn slug env st fs =
                  ⟨.updated, setRecord st slug ver.id,
                   ⟨insertIfAbsent (md ++ "/" ++ pn) fs.dirs,
                    insertIfAbsent ((md ++ "/" ++ pn) ++ "/" ++ pathBase f0.url) fs.files⟩⟩ := by
                simp only [processSlug, hf]
                rw [if_neg h1, if_neg h2, if_neg h3]
                simp only [hh]
                rw [if_neg h4]
              exact Or.inr (Or.inr (Or.inr ⟨ver, f0, rfl, hh, h4t, hr⟩))

theorem processSlug_state_frame (autoYes : Bool) (md pn slug : String) (env : StepEnv)
    (st : PackState) (fs : FS)
    (h : ¬ (processSlug autoYes md pn slug env st fs).outcome = .updated) :
    (processSlug autoYes md pn slug env st fs).packState = st := by
  rcases processSlug_spec autoYes md pn slug env st fs with
    ⟨hr, _⟩ | ⟨hr, _⟩ | ⟨hr, _⟩ | ⟨ver, f0, _, _, _, hr⟩
  · rw [hr]
  · rw [hr]
  · rw [hr]
  · rw [hr] at h; exact absurd rfl h

theorem processSlug_updated_download (autoYes : Bool) (md pn slug : String) (env : StepEnv)
    (st : PackState) (fs : FS)
    (h : (processSlug autoYes md pn slug env st fs).outcome = .updated) :
    env.downloadOk = true := by
  rcases processSlug_spec autoYes md pn slug env st fs with
    ⟨hr, ho⟩ | ⟨hr, _⟩ | ⟨hr, _⟩ | ⟨ver, f0, _, _, hok, hr⟩
  · rcases ho with ho | ho | ho | ho <;> rw [ho] at h <;> exact absurd h (by simp)
  · rw [hr] at h; exact absurd h (by simp)
  · rw [hr] at h; exact absurd h (by simp)
  · exact hok

theorem processSlug_files_mono (autoYes : Bool) (md pn slug : String) (env : StepEnv)
    (st : PackState) (fs : FS) (path : String) (h : path ∈ fs.files) :
    path ∈ (processSlug autoYes md pn slug env st fs).fs.files := by
  rcases processSlug_spec autoYes md pn slug env st fs with
    ⟨hr, _⟩ | ⟨hr, _⟩ | ⟨hr, _⟩ | ⟨ver, f0, _, _, _, hr⟩
  · rw [hr]; exact h
  · rw [hr]; exact h
  · rw [hr]; exact h
  · rw [hr]; exact mem_insertIfAbsent_of_mem _ _ _ h

theorem processSlug_ne_crashed (autoYes : Bool) (md pn slug : String) (env : StepEnv)
    (st : PackState) (fs : FS)
    (hok : ∀ ver, env.fetch = .ok ver → ¬ ver.files = []) :
    ¬ (processSlug autoYes md pn slug env st fs).outcome = .crashed := by
  rcases processSlug_spec autoYes md pn slug env st fs with
    ⟨hr, ho⟩ | ⟨hr, _⟩ | ⟨hr, hc⟩ | ⟨ver, f0, _, _, _, hr⟩
  · rcases ho with ho | ho | ho | ho <;> rw [ho] <;> simp
  · rw [hr]; simp
  · obtain ⟨ver, hv, hnil⟩ := hc
    exact absurd hnil (hok ver hv)
  · rw [hr]; simp

theorem processSlug_declined (md pn slug : String) (env : StepEnv)
    (st : PackState) (fs : FS) (hans : ¬ normalizeAnswer env.answer = "y") :
    (processSlug false md pn slug env st fs).packState = st ∧
    (processSlug false md pn slug env st fs).fs = fs ∧
    ¬ (processSlug false md pn slug env st fs).outcome = .crashed := by
  cases hf : env.fetch with
  | error e =>
    have hr : processSlug false md pn slug env st fs = ⟨.fetchErr, st, fs⟩ := by
      simp [processSlug, hf]
    rw [hr]; exact ⟨rfl, rfl, by simp⟩
  | ok ver =>
    by_cases h1 : ver.id = lookupDefault st slug
    · have hr : processSlug false md pn slug env st fs = ⟨.upToDate, st, fs⟩ := by
        simp [processSlug, hf, h1]
      rw [hr]; exact ⟨rfl, rfl, by simp⟩
    · have hr : processSlug false md pn slug env st fs = ⟨.skipped, st, fs⟩ := by
        simp only [processSlug, hf]
        rw [if_neg h1, if_pos ⟨by trivial, hans⟩]
      rw [hr]; exact ⟨rfl, rfl, by simp⟩

/-! Lemmas about the `update` loop and the state map. -/

theorem updateLoop_cons_of_ne_crashed (autoYes : Bool) (md pn : String)
    (envs : String → StepEnv) (slug : String) (rest : List String)
    (st : PackState) (fs : FS)
    (h : ¬ (processSlug autoYes md pn slug (envs slug) st fs).outcome = .crashed) :
    updateLoop autoYes md pn envs (slug :: rest) st fs =
      ⟨(slug, (processSlug autoYes md pn slug (envs slug) st fs).outcome) ::
        (updateLoop autoYes md pn envs rest
          (processSlug autoYes md pn slug (envs slug) st fs).packState
          (processSlug autoYes md pn slug (envs slug) st fs).fs).report,
       (updateLoop autoYes md pn envs rest
          (processSlug autoYes md pn slug (envs slug) st fs).packState
          (processSlug autoYes md pn slug (envs slug) st fs).fs).packState,
       (updateLoop autoYes md pn envs rest
          (processSlug autoYes md pn slug (envs slug) st fs).packState
          (processSlug autoYes md pn slug (envs slug) st fs).fs).fs,
       (updateLoop autoYes md pn envs rest
          (processSlug autoYes md pn slug (envs slug) st fs).packState
          (processSlug autoYes md pn slug (envs slug) st fs).fs).crashed⟩ := by
  simp only [updateLoop]
  rw [if_neg h]

theorem updateLoop_no_crash (autoYes : Bool) (md pn : String) (envs : String → StepEnv) :
    ∀ (slugs : List String) (st : PackState) (fs : FS),
      (∀ slug ∈ slugs, ∀ ver, (envs slug).fetch = .ok ver → ¬ ver.files = []) →
      (updateLoop autoYes md pn envs slugs st fs).crashed = false ∧
      (updateLoop autoYes md pn envs slugs st fs).report.map Prod.fst = slugs := by
  intro slugs
  induction slugs with
  | nil => intro st fs _; exact ⟨rfl, rfl⟩
  | cons slug rest ih =>
    intro st fs h
    have hnc := processSlug_ne_crashed autoYes md pn slug (envs slug) st fs
      (h slug (List.mem_cons_self slug rest))
    rw [updateLoop_cons_of_ne_crashed autoYes md pn envs slug rest st fs hnc]
    have ihr := ih (processSlug autoYes md pn slug (envs slug) st fs).packState
      (processSlug autoYes md pn slug (envs slug) st fs).fs
      (fun s hs => h s (List.mem_cons_of_mem _ hs))
    exact ⟨ihr.1, by simp [ihr.2]⟩

theorem updateLoop_files_mono (autoYes : Bool) (md pn : String) (envs : String → StepEnv) :
    ∀ (slugs : List String) (st : PackState) (fs : FS) (path : String),
      path ∈ fs.files → path ∈ (updateLoop autoYes md pn envs slugs st fs).fs.files := by
  intro slugs
  induction slugs with
  | nil => intro st fs path h; exact h
  | cons slug rest ih =>
    intro st fs path h
    have hstep := processSlug_files_mono autoYes md pn slug (envs slug) st fs path h
    by_cases hc : (processSlug autoYes md pn slug (envs slug) st fs).outcome = .crashed
    · simp only [updateLoop]
      rw [if_pos hc]
      exact hstep
    · rw [updateLoop_cons_of_ne_crashed autoYes md pn envs slug rest st fs hc]
      exact ih _ _ path hstep

theorem updateLoop_declined (md pn : String) (envs : String → StepEnv)
    (hans : ∀ slug, ¬ normalizeAnswer (envs slug).answer = "y") :
    ∀ (slugs : List String) (st : PackState) (fs : FS),
      (updateLoop false md pn envs slugs st fs).packState = st ∧
      (updateLoop false md pn envs slugs st fs).fs = fs ∧
      (updateLoop false md pn envs slugs st fs).crashed = false := by
  intro slugs
  induction slugs with
  | nil => intro st fs; exact ⟨rfl, rfl, rfl⟩
  | cons slug rest ih =>
    intro st fs
    obtain ⟨hst, hfs, hnc⟩ := processSlug_declined md pn slug (envs slug) st fs (hans slug)
    rw [updateLoop_cons_of_ne_crashed false md pn envs slug rest st fs hnc]
    rw [hst, hfs]
    exact ih st fs

theorem getPack_ensurePack (state : State) (pn q : String) :
    getPack (ensurePack state pn) q = getPack state q := by
  unfold ensurePack
  cases hfind : state.find? (fun p => p.1 == pn) with
  | some e => rfl
  | none =>
    unfold getPack
    rw [List.find?_append]
    cases hq : state.find? (fun p => p.1 == q) with
    | some e => rfl
    | none =>
      by_cases hpq : (pn == q) = true
      · simp [List.find?, hpq]
      · simp [List.find?, hpq]

theorem map_noKey_id (pn : String) (ps : PackState) :
    ∀ l : State, (∀ p ∈ l, ¬ (p.1 == pn) = true) →
      l.map (fun p => if p.1 == pn then (pn, ps) else p) = l := by
  intro l
  induction l with
  | nil => intro _; rfl
  | cons hd tl ih =>
    intro h
    have hh := h hd (List.mem_cons_self hd tl)
    simp only [List.map_cons]
    rw [if_neg hh, ih (fun p hp => h p (List.mem_cons_of_mem _ hp))]

theorem setPack_getPack_of_found (pn : String) :
    ∀ (state : State), (state.map Prod.fst).Nodup →
      (state.find? (fun p => p.1 == pn)).isSome = true →
      setPack state pn (getPack state pn) = state := by
  intro state
  induction state with
  | nil => intro _ h; simp [List.find?] at h
  | cons hd tl ih =>
    intro hnd hsome
    have hnd' : (hd.1 :: tl.map Prod.fst).Nodup := by
      rw [List.map_cons] at hnd; exact hnd
    have hnd2 := List.nodup_cons.mp hnd'
    by_cases hk : (hd.1 == pn) = true
    · have hkey : hd.1 = pn := beq_iff_eq.mp hk
      have hfind : ((hd :: tl).find? (fun p => p.1 == pn)) = some hd :=
        List.find?_cons_of_pos _ hk
      have hget : getPack (hd :: tl) pn = hd.2 := by simp [getPack, hfind]
      have hnotin : ∀ p ∈ tl, ¬ (p.1 == pn) = true := by
        intro p hp hbeq
        have hpe : p.1 = pn := beq_iff_eq.mp hbeq
        exact hnd2.1 (by
          rw [hkey, ← hpe]
          exact List.mem_map_of_mem Prod.fst hp)
      unfold setPack
      rw [hfind, hget]
      simp only [List.map_cons]
      rw [if_pos hk, map_noKey_id pn hd.2 tl hnotin, ← hkey]
    · have hfind : ((hd :: tl).find? (fun p => p.1 == pn)) = tl.find? (fun p => p.1 == pn) :=
        List.find?_cons_of_neg _ hk
      have hsome2 : (tl.find? (fun p => p.1 == pn)).isSome = true := by
        rw [hfind] at hsome; exact hsome
      have hget : getPack (hd :: tl) pn = getPack tl pn := by
        simp [getPack, hfind]
      obtain ⟨e, he⟩ := Option.isSome_iff_exists.mp hsome2
      have htl := ih hnd2.2 hsome2
      have htlmap : tl.map (fun p => if p.1 == pn then (pn, getPack tl pn) else p) = tl := by
        unfold setPack at htl
        rw [he] at htl
        exact htl
      unfold setPack
      rw [hfind, he, hget]
      simp only [List.map_cons]
      rw [if_neg hk, htlmap]

theorem ensurePack_nodup (state : State) (pn : String)
    (hnd : (state.map Prod.fst).Nodup) :
    ((ensurePack state pn).map Prod.fst).Nodup := by
  unfold ensurePack
  cases hfind : state.find? (fun p => p.1 == pn) with
  | some e => exact hnd
  | none =>
    rw [List.map_append]
    have hnot : pn ∉ state.map Prod.fst := by
      intro hmem
      obtain ⟨p, hp, hpe⟩ := List.mem_map.mp hmem
      exact (List.find?_eq_none.mp hfind p hp) (beq_iff_eq.mpr hpe)
    simp [List.nodup_append, hnd, hnot]

theorem ensurePack_isSome (state : State) (pn : String) :
    ((ensurePack state pn).find? (fun p => p.1 == pn)).isSome = true := by
  unfold ensurePack
  cases hfind : state.find? (fun p => p.1 == pn) with
  | some e => rw [hfind]; rfl
  | none =>
    rw [List.find?_append, hfind]
    simp [List.find?]

theorem updateCmd_eq_of_found (cfg : Config) (pn : String) (autoYes : Bool) (md : String)
    (envs : String → StepEnv) (state : State) (fs : FS) (entry : String × ModpackConfig)
    (hfound : cfg.modpacks.find? (fun p => p.1 == pn) = some entry)
    (hnc : (updateLoop autoYes md pn envs entry.2.mods
        (getPack (ensurePack state pn) pn) fs).crashed = false) :
    updateCmd cfg pn autoYes md envs state fs =
      .ok ⟨setPack (ensurePack state pn) pn
             (updateLoop autoYes md pn envs entry.2.mods
               (getPack (ensurePack state pn) pn) fs).packState,
           (updateLoop autoYes md pn envs entry.2.mods
             (getPack (ensurePack state pn) pn) fs).fs,
           (updateLoop autoYes md pn envs entry.2.mods
             (getPack (ensurePack state pn) pn) fs).report⟩ := by
  unfold updateCmd
  rw [hfound]
  dsimp only
  rw [if_neg (by simp [hnc])]

/-! Claim C2. -/

/-- C2: for every modpack and declared slug, the install record for the
slug is written or replaced only after `DownloadFile` returns success for
the resolved release; on a fetch error, a declined confirmation, a
directory-creation failure or a download failure the prior record is left
untouched and the loop moves on to the remaining slugs. -/
theorem update_record_only_after_download (autoYes : Bool) (md pn slug : String)
    (envs : String → StepEnv) (rest : List String) (st : PackState) (fs : FS) :
    (((processSlug autoYes md pn slug (envs slug) st fs).outcome = .fetchErr ∨
      (processSlug autoYes md pn slug (envs slug) st fs).outcome = .skipped ∨
      (processSlug autoYes md pn slug (envs slug) st fs).outcome = .mkdirErr ∨
      (processSlug autoYes md pn slug (envs slug) st fs).outcome = .downloadErr) →
      (processSlug autoYes md pn slug (envs slug) st fs).packState = st ∧
      (updateLoop autoYes md pn envs (slug :: rest) st fs).report =
        (slug, (processSlug autoYes md pn slug (envs slug) st fs).outcome) ::
          (updateLoop autoYes md pn envs rest
            (processSlug autoYes md pn slug (envs slug) st fs).packState
            (processSlug autoYes md pn slug (envs slug) st fs).fs).report) ∧
    (¬ (processSlug autoYes md pn slug (envs slug) st fs).packState = st →
      (processSlug autoYes md pn slug (envs slug) st fs).outcome = .updated ∧
      (envs slug).downloadOk = true) := by
  constructor
  · intro ho
    have hne : ¬ (processSlug autoYes md pn slug (envs slug) st fs).outcome = .updated := by
      rcases ho with h | h | h | h <;> rw [h] <;> simp
    have hnc : ¬ (processSlug autoYes md pn slug (envs slug) st fs).outcome = .crashed := by
      rcases ho with h | h | h | h <;> rw [h] <;> simp
    refine ⟨processSlug_state_frame autoYes md pn slug (envs slug) st fs hne, ?_⟩
    rw [updateLoop_cons_of_ne_crashed autoYes md pn envs slug rest st fs hnc]
  · intro hne
    by_cases hu : (processSlug autoYes md pn slug (envs slug) st fs).outcome = .updated
    · exact ⟨hu, processSlug_updated_download autoYes md pn slug (envs slug) st fs hu⟩
    · exact absurd (processSlug_state_frame autoYes md pn slug (envs slug) st fs hu) hne

/-- Witness for C2: a failing download for `alpha` leaves its (empty)
record untouched and the loop still emits the report entry and continues. -/
theorem update_record_only_after_download_witness :
    (processSlug true "mods" "P" "alpha" envDownloadFail [] ⟨[], []⟩).packState = [] ∧
    (updateLoop true "mods" "P" (fun _ => envDownloadFail) ["alpha"] [] ⟨[], []⟩).report =
      ("alpha", (processSlug true "mods" "P" "alpha" envDownloadFail [] ⟨[], []⟩).outcome) ::
        (updateLoop true "mods" "P" (fun _ => envDownloadFail) []
          (processSlug true "mods" "P" "alpha" envDownloadFail [] ⟨[], []⟩).packState
          (processSlug true "mods" "P" "alpha" envDownloadFail [] ⟨[], []⟩).fs).report :=
  (update_record_only_after_download true "mods" "P" "alpha" (fun _ => envDownloadFail)
    [] [] ⟨[], []⟩).1 (by decide)

/-! Claim C8. -/

/-- C8: an error while processing one mod (fetch error, directory-creation
failure or download failure) never aborts the remaining declared mods:
provided every resolved release carries at least one file (so the unchecked
`ver.Files[0]` access cannot panic, see C10), the update loop attempts every
declared mod in order and the command returns successfully; the command
aborts only for an unknown modpack name (or, upstream, a `LoadConfig`
validation error). -/
theorem update_processes_all_mods (cfg : Config) (pn : String) (autoYes : Bool) (md : String)
    (envs : String → StepEnv) (state : State) (fs : FS)
    (hfiles : ∀ slug ver, (envs slug).fetch = .ok ver → ¬ ver.files = []) :
    (∀ entry, cfg.modpacks.find? (fun p => p.1 == pn) = some entry →
      ∃ res, updateCmd cfg pn autoYes md envs state fs = .ok res ∧
        res.report.map Prod.fst = entry.2.mods) ∧
    (cfg.modpacks.find? (fun p => p.1 == pn) = none →
      updateCmd cfg pn autoYes md envs state fs =
        .error ("modpack " ++ pn ++ " not found")) := by
  constructor
  · intro entry hfound
    have hl := updateLoop_no_crash autoYes md pn envs entry.2.mods
      (getPack (ensurePack state pn) pn) fs (fun s _ => hfiles s)
    exact ⟨_, updateCmd_eq_of_found cfg pn autoYes md envs state fs entry hfound hl.1, hl.2⟩
  · intro hnone
    unfold updateCmd
    rw [hnone]

/-- Witness for C8: both declared mods of pack `Q` hit a fetch error, yet
the loop attempts both in order and the command succeeds. -/
theorem update_processes_all_mods_witness :
    ∃ res, updateCmd cfgAB "Q" true "mods" (fun _ => envFetchErr) [] ⟨[], []⟩ = .ok res ∧
      res.report.map Prod.fst = ["a", "b"] :=
  (update_processes_all_mods cfgAB "Q" true "mods" (fun _ => envFetchErr) [] ⟨[], []⟩
    (fun slug ver h => by simp [envFetchErr] at h)).1
    ("Q", ⟨"1.20.1", "fabric", ["a", "b"]⟩) (by decide)

/-! Claim C10. -/

/-- C10: the update step reads the resolved release's first file descriptor
(`ver.Files[0].URL`) without checking that the file list is non-empty: the
access is in bounds, and the step panic-free, whenever the resolved release
carries at least one file descriptor; `FetchLatestVersion` itself is willing
to return a release with no files, and feeding such a release to the step
with every other guard passed reaches the out-of-range access. -/
theorem update_files_head_access :
    (∀ (autoYes : Bool) (md pn slug : String) (env : StepEnv) (st : PackState) (fs : FS)
        (ver : Version), env.fetch = .ok ver → ¬ ver.files = [] →
      ¬ (processSlug autoYes md pn slug env st fs).outcome = .crashed) ∧
    fetchLatestVersion "alpha" "1.20.1" "fabric" [verNoFiles] = .ok verNoFiles ∧
    (processSlug true "mods" "P" "alpha" ⟨.ok verNoFiles, "", true, true⟩ [] ⟨[], []⟩).outcome =
      .crashed := by
  refine ⟨?_, by decide, by decide⟩
  intro autoYes md pn slug env st fs ver hf hne
  refine processSlug_ne_crashed autoYes md pn slug env st fs ?_
  intro v hv
  rw [hf] at hv
  simp only [Except.ok.injEq] at hv
  subst hv
  exact hne

/-- Witness for C10: a release with one file makes the step panic-free. -/
theorem update_files_head_access_witness :
    ¬ (processSlug true "mods" "P" "alpha" envR1 [] ⟨[], []⟩).outcome = .crashed :=
  update_files_head_access.1 true "mods" "P" "alpha" envR1 [] ⟨[], []⟩ verR1 rfl (by decide)

/-! Characterization of the `sync` deletion loop. -/

theorem syncProcess_mem (dir : String) (mods : List String) (removeOk : String → Bool) :
    ∀ (files : List DirEntry) (p : String),
      p ∈ (syncProcess dir mods removeOk files).1 ↔
        ∃ f, f ∈ files ∧ f.isDir = false ∧ syncKeep mods f.name = false ∧
          p = dir ++ "/" ++ f.name := by
  intro files
  induction files with
  | nil => intro p; simp [syncProcess]
  | cons f rest ih =>
    intro p
    by_cases hd : f.isDir = true
    · have hstep : syncProcess dir mods removeOk (f :: rest) =
          syncProcess dir mods removeOk rest := by
        simp only [syncProcess]
        rw [if_pos hd]
      rw [hstep, ih]
      constructor
      · rintro ⟨g, hg, hgd, hgk, hp⟩
        exact ⟨g, List.mem_cons_of_mem _ hg, hgd, hgk, hp⟩
      · rintro ⟨g, hg, hgd, hgk, hp⟩
        rcases List.mem_cons.mp hg with hg | hg
        · subst hg; rw [hd] at hgd; exact absurd hgd (by simp)
        · exact ⟨g, hg, hgd, hgk, hp⟩
    · have hdf : f.isDir = false := by
        cases hb : f.isDir
        · rfl
        · exact absurd hb hd
      by_cases hk : syncKeep mods f.name = true
      · have hstep : syncProcess dir mods removeOk (f :: rest) =
            syncProcess dir mods removeOk rest := by
          simp only [syncProcess]
          rw [if_neg hd, if_pos hk]
        rw [hstep, ih]
        constructor
        · rintro ⟨g, hg, hgd, hgk, hp⟩
          exact ⟨g, List.mem_cons_of_mem _ hg, hgd, hgk, hp⟩
        · rintro ⟨g, hg, hgd, hgk, hp⟩
          rcases List.mem_cons.mp hg with hg | hg
          · subst hg; rw [hk] at hgk; exact absurd hgk (by simp)
          · exact ⟨g, hg, hgd, hgk, hp⟩
      · have hkf : syncKeep mods f.name = false := by
          cases hb : syncKeep mods f.name
          · rfl
          · exact absurd hb hk
        have hstep : (syncProcess dir mods removeOk (f :: rest)).1 =
            (dir ++ "/" ++ f.name) :: (syncProcess dir mods removeOk rest).1 := by
          simp only [syncProcess]
          rw [if_neg hd, if_neg hk]
          by_cases hr : removeOk (dir ++ "/" ++ f.name) = true
          · rw [if_pos hr]
          · rw [if_neg hr]
        rw [hstep]
        constructor
        · intro hp
          rcases List.mem_cons.mp hp with hp | hp
          · exact ⟨f, List.mem_cons_self f rest, hdf, hkf, hp⟩
          · obtain ⟨g, hg, hgd, hgk, hpe⟩ := (ih p).mp hp
            exact ⟨g, List.mem_cons_of_mem _ hg, hgd, hgk, hpe⟩
        · rintro ⟨g, hg, hgd, hgk, hpe⟩
          rcases List.mem_cons.mp hg with hg | hg
          · subst hg; rw [hpe]; exact List.mem_cons_self _ _
          · exact List.mem_cons_of_mem _ ((ih p).mpr ⟨g, hg, hgd, hgk, hpe⟩)

/-! Claim C3. -/

/-- C3 is false on the code: `sync` derives its protected set from the
declared mod list by substring matching, not from install-record filenames.
The directory holds a file named exactly as the stored filename of install
record `recZeta` (a mod absent from the declared list) and `sync` deletes
it, while `alpha-extra.jar` — tied to no install record — is kept merely
because its name contains the declared slug `alpha`. -/
theorem sync_deletes_recorded_filename :
    syncCmd cfgP "P" "mods"
        (some [⟨recZeta.filename, false⟩, ⟨"alpha-extra.jar", false⟩]) (fun _ => true) =
      .ok (["mods/P/" ++ recZeta.filename], 1) := by decide

/-- C3 amended: for every modpack, `sync` derives its protected set solely
from the declared mod list: it attempts to remove exactly the non-directory
files whose lowercased name contains no declared slug's lowercased form;
install records play no role in the decision. -/
theorem sync_protected_set_from_config (cfg : Config) (pn md : String)
    (files : List DirEntry) (removeOk : String → Bool) (entry : String × ModpackConfig)
    (hfound : cfg.modpacks.find? (fun p => p.1 == pn) = some entry) :
    ∀ res, syncCmd cfg pn md (some files) removeOk = .ok res →
      ∀ p, p ∈ res.1 ↔ ∃ f, f ∈ files ∧ f.isDir = false ∧
        syncKeep entry.2.mods f.name = false ∧ p = (md ++ "/" ++ pn) ++ "/" ++ f.name := by
  intro res hres p
  unfold syncCmd at hres
  rw [hfound] at hres
  dsimp only at hres
  simp only [Except.ok.injEq] at hres
  subst hres
  exact syncProcess_mem (md ++ "/" ++ pn) entry.2.mods removeOk files p

/-- Witness for the amended C3: a file matching no declared slug is in the
attempted-removal list. -/
theorem sync_protected_set_from_config_witness :
    "mods/P/zzz.jar" ∈ (["mods/P/zzz.jar"], 1).1 :=
  ((sync_protected_set_from_config cfgP "P" "mods" [⟨"zzz.jar", false⟩] (fun _ => true)
      ("P", ⟨"1.20.1", "fabric", ["alpha"]⟩) (by decide))
    (["mods/P/zzz.jar"], 1) (by decide) "mods/P/zzz.jar").mpr
    ⟨⟨"zzz.jar", false⟩, by decide, rfl, by decide, by decide⟩

/-! Claim C4. -/

/-- C4 is false on the code: with an install record whose release id matches
the resolved release and an empty filesystem (so the recorded artifact is
certainly absent), the update step reports `upToDate` and takes no action —
there is no `FileMissing` classification and no re-download (records store
no filename and the step never consults the filesystem). -/
theorem update_missing_file_treated_up_to_date :
    processSlug true "mods" "P" "alpha" envR1 [("alpha", "r1")] ⟨[], []⟩ =
      ⟨.upToDate, [("alpha", "r1")], ⟨[], []⟩⟩ ∧
    downloadCalls (processSlug true "mods" "P" "alpha" envR1
      [("alpha", "r1")] ⟨[], []⟩).outcome = 0 := by decide

/-- C4 amended: whenever the resolved release id equals the recorded one,
the update step reports the mod up to date and performs no action at all,
regardless of the filesystem contents. -/
theorem update_matching_id_no_action (autoYes : Bool) (md pn slug : String) (env : StepEnv)
    (st : PackState) (fs : FS) (ver : Version)
    (hf : env.fetch = .ok ver) (hid : ver.id = lookupDefault st slug) :
    processSlug autoYes md pn slug env st fs = ⟨.upToDate, st, fs⟩ := by
  simp [processSlug, hf, hid]

/-- Witness for the amended C4: matching ids are a no-op on a filesystem
that does not even contain the pack directory. -/
theorem update_matching_id_no_action_witness :
    processSlug true "mods" "P" "alpha" envR1 [("alpha", "r1")] ⟨[], ["unrelated.jar"]⟩ =
      ⟨.upToDate, [("alpha", "r1")], ⟨[], ["unrelated.jar"]⟩⟩ :=
  update_matching_id_no_action true "mods" "P" "alpha" envR1 [("alpha", "r1")]
    ⟨[], ["unrelated.jar"]⟩ verR1 rfl (by decide)

/-! Claim C5. -/

/-- C5 is false on the code: a fresh install with auto-approval creates a
record holding only the resolved release id `r1`; the downloaded filename
`alpha-1.0.jar` appears nowhere in the state — the record is the bare id
string and does not even contain the filename as a substring. -/
theorem update_new_record_lacks_filename :
    updateCmd cfgP "P" true "mods" (fun _ => envR1) [] ⟨[], []⟩ =
      .ok ⟨[("P", [("alpha", "r1")])], ⟨["mods/P"], ["mods/P/alpha-1.0.jar"]⟩,
           [("alpha", .updated)]⟩ ∧
    strContains "r1" fileA1.filename = false := by decide

/-- C5 amended: for every mod with no prior install record, when the
resolver returns a release with a nonempty id and at least one file and the
directory creation succeeds, an auto-approved update attempts exactly one
download; on success it appends a record holding the resolved release id
alone (no filename is stored). -/
theorem update_new_mod_one_download (autoYes : Bool) (md pn slug : String) (env : StepEnv)
    (st : PackState) (fs : FS) (ver : Version) (hauto : autoYes = true)
    (hnew : st.find? (fun p => p.1 == slug) = none)
    (hf : env.fetch = .ok ver) (hid : ¬ ver.id = "") (hfl : ¬ ver.files = [])
    (hmk : env.mkdirOk = true) :
    downloadCalls (processSlug autoYes md pn slug env st fs).outcome = 1 ∧
    (env.downloadOk = true →
      (processSlug autoYes md pn slug env st fs).packState = st ++ [(slug, ver.id)]) := by
  have hlu : lookupDefault st slug = "" := by simp [lookupDefault, hnew]
  have h1 : ¬ ver.id = lookupDefault st slug := by rw [hlu]; exact hid
  have h2 : ¬ (autoYes = false ∧ ¬ normalizeAnswer env.answer = "y") := by
    rintro ⟨hc, _⟩
    rw [hauto] at hc
    exact absurd hc (by simp)
  have h3 : ¬ env.mkdirOk = false := by rw [hmk]; simp
  cases hfc : ver.files with
  | nil => exact absurd hfc hfl
  | cons f0 tl =>
    have hh : ver.files.head? = some f0 := by rw [hfc]; rfl
    cases hdl : env.downloadOk with
    | false =>
      have hr : processSlug autoYes md pn slug env st fs =
          ⟨.downloadErr, st, ⟨insertIfAbsent (md ++ "/" ++ pn) fs.dirs, fs.files⟩⟩ := by
        simp only [processSlug, hf]
        rw [if_neg h1, if_neg h2, if_neg h3]
        simp only [hh]
        rw [if_pos hdl]
      rw [hr]
      exact ⟨rfl, fun hc => absurd hc (by simp)⟩
    | true =>
      have h4 : ¬ env.downloadOk = false := by rw [hdl]; simp
      have hr : processSlug autoYes md pn slug env st fs =
          ⟨.updated, setRecord st slug ver.id,
           ⟨insertIfAbsent (md ++ "/" ++ pn) fs.dirs,
            insertIfAbsent ((md ++ "/" ++ pn) ++ "/" ++ pathBase f0.url) fs.files⟩⟩ := by
        simp only [processSlug, hf]
        rw [if_neg h1, if_neg h2, if_neg h3]
        simp only [hh]
        rw [if_neg h4]
      rw [hr]
      refine ⟨rfl, fun _ => ?_⟩
      simp [setRecord, hnew]

/-- Witness for the amended C5: the fresh install of `alpha` performs one
download and records exactly the id `r1`. -/
theorem update_new_mod_one_download_witness :
    downloadCalls (processSlug true "mods" "P" "alpha" envR1 [] ⟨[], []⟩).outcome = 1 ∧
    (envR1.downloadOk = true →
      (processSlug true "mods" "P" "alpha" envR1 [] ⟨[], []⟩).packState =
        [] ++ [("alpha", "r1")]) :=
  update_new_mod_one_download true "mods" "P" "alpha" envR1 [] ⟨[], []⟩ verR1 rfl rfl rfl
    (by decide) (by decide) rfl

/-! Claim C6. -/

/-- C6 is false as stated: a fully-declined run still changes the persisted
state when the modpack had no state entry — the run installs an empty entry
for `P` into the state map and the final `SaveState` persists it, so the
state on disk is not byte-for-byte unchanged. -/
theorem update_skipped_run_adds_empty_entry :
    updateCmd cfgP "P" false "mods" (fun _ => ⟨.ok verR1, "n", true, true⟩) [] ⟨[], []⟩ =
      .ok ⟨[("P", [])], ⟨[], []⟩, [("alpha", .skipped)]⟩ ∧
    ¬ ([("P", ([] : PackState))] : State) = ([] : State) := by decide

/-- C6 amended: when auto-approve is off and every prompt is declined, no
download happens, the filesystem is unchanged and every install record is
left unchanged; the only state change is that the modpack gains an empty
entry when it had none (which the final `SaveState` rewrites to disk). -/
theorem update_declined_frame (cfg : Config) (pn md : String)
    (envs : String → StepEnv) (state : State) (fs : FS)
    (hnd : (state.map Prod.fst).Nodup)
    (hfound : (cfg.modpacks.find? (fun p => p.1 == pn)).isSome = true)
    (hans : ∀ slug, ¬ normalizeAnswer (envs slug).answer = "y") :
    (∃ rep, updateCmd cfg pn false md envs state fs = .ok ⟨ensurePack state pn, fs, rep⟩) ∧
    (∀ q, getPack (ensurePack state pn) q = getPack state q) := by
  obtain ⟨entry, hentry⟩ := Option.isSome_iff_exists.mp hfound
  have hloop := updateLoop_declined md pn envs hans entry.2.mods
    (getPack (ensurePack state pn) pn) fs
  have hcmd := updateCmd_eq_of_found cfg pn false md envs state fs entry hentry hloop.2.2
  refine ⟨⟨(updateLoop false md pn envs entry.2.mods
    (getPack (ensurePack state pn) pn) fs).report, ?_⟩,
    fun q => getPack_ensurePack state pn q⟩
  rw [hcmd, hloop.1, hloop.2.1]
  rw [setPack_getPack_of_found pn (ensurePack state pn)
    (ensurePack_nodup state pn hnd) (ensurePack_isSome state pn)]

/-- Witness for the amended C6: declining the `r1 -> r2` update of `alpha`
leaves the state entry and the filesystem unchanged. -/
theorem update_declined_frame_witness :
    (∃ rep, updateCmd cfgP "P" false "mods" (fun _ => ⟨.ok verR2, "no", true, true⟩)
        [("P", [("alpha", "r1")])] ⟨["mods/P"], ["m1.jar"]⟩ =
      .ok ⟨ensurePack [("P", [("alpha", "r1")])] "P", ⟨["mods/P"], ["m1.jar"]⟩, rep⟩) ∧
    (∀ q, getPack (ensurePack [("P", [("alpha", "r1")])] "P") q =
      getPack [("P", [("alpha", "r1")])] q) :=
  update_declined_frame cfgP "P" "mods" (fun _ => ⟨.ok verR2, "no", true, true⟩)
    [("P", [("alpha", "r1")])] ⟨["mods/P"], ["m1.jar"]⟩ (by decide) (by decide)
    (fun _ => (by decide : ¬ normalizeAnswer "no" = "y"))

/-! Claim C7. -/

/-- C7 is false on the code: updating `alpha` from the recorded release
`r1` (file `alpha-1.0.jar`, still on disk) to release `r2` downloads
`alpha-2.0.jar` but leaves the stale `alpha-1.0.jar` in place — no deletion
of the previously recorded file happens. -/
theorem update_keeps_stale_file :
    updateCmd cfgP "P" true "mods" (fun _ => envR2)
        [("P", [("alpha", "r1")])] ⟨["mods/P"], ["mods/P/alpha-1.0.jar"]⟩ =
      .ok ⟨[("P", [("alpha", "r2")])],
           ⟨["mods/P"], ["mods/P/alpha-1.0.jar", "mods/P/alpha-2.0.jar"]⟩,
           [("alpha", .updated)]⟩ ∧
    "mods/P/alpha-1.0.jar" ∈
      (⟨["mods/P"], ["mods/P/alpha-1.0.jar", "mods/P/alpha-2.0.jar"]⟩ : FS).files := by decide

/-- C7 amended: the update loop never deletes any file — every file present
before a run is still present afterwards; stale artifacts stay on disk and
are removed only by the separate `sync` command. -/
theorem update_never_deletes (autoYes : Bool) (md pn : String) (envs : String → StepEnv)
    (slugs : List String) (st : PackState) (fs : FS) (path : String)
    (h : path ∈ fs.files) :
    path ∈ (updateLoop autoYes md pn envs slugs st fs).fs.files :=
  updateLoop_files_mono autoYes md pn envs slugs st fs path h

/-- Witness for the amended C7: the stale `alpha-1.0.jar` survives the
update to `r2`. -/
theorem update_never_deletes_witness :
    "mods/P/alpha-1.0.jar" ∈
      (updateLoop true "mods" "P" (fun _ => envR2) ["alpha"] [("alpha", "r1")]
        ⟨["mods/P"], ["mods/P/alpha-1.0.jar"]⟩).fs.files :=
  update_never_deletes true "mods" "P" (fun _ => envR2) ["alpha"] [("alpha", "r1")]
    ⟨["mods/P"], ["mods/P/alpha-1.0.jar"]⟩ "mods/P/alpha-1.0.jar" (by decide)

end Modpilot
